import Mathlib

/-
Verification of the notes_search incremental reindexer and query
serialization, shallowly embedded from the Go sources
(search/bleve_indexer/bleve_indexer.go and app/tui/notes_search.go).
-/

namespace NotesSearch

/-- Mirrors the Go struct FileInfo of bleve_indexer.go: a file path paired
with its last-modified time. Timestamps are abstracted to Nat; the Go code
only ever compares them with the inequality operator. -/
structure FileInfo where
  path : String
  modTime : Nat
  deriving DecidableEq, Repr

/-- Paths of a snapshot, in order. -/
def pathsOf (l : List FileInfo) : List String :=
  l.map FileInfo.path

/-- Records appended to modified by the inner loop of compareFileInfos while
it scans current for matches of f1: one copy of f1 for every record of
current that shares its path but differs in modTime. -/
def modifiedFor (f1 : FileInfo) (current : List FileInfo) : List FileInfo :=
  (current.filter fun f2 => f1.path == f2.path && f1.modTime != f2.modTime).map fun _ => f1

/-- Mirrors compareFileInfos of bleve_indexer.go. The first Go loop walks
old, appending f1 to deleted when no record of current shares its path, and
appending f1 to modified once per record of current that shares its path
with a different modTime; the second loop walks current, appending to
created every record whose path is absent from old. Each output list is
built by successive appends in iteration order, which is exactly filter
(for deleted and created) and bind over modifiedFor (for modified). -/
def compareFileInfos (old current : List FileInfo) :
    List FileInfo × List FileInfo × List FileInfo :=
  let deleted := old.filter fun f1 => !(current.any fun f2 => f1.path == f2.path)
  let modified := old.flatMap fun f1 => modifiedFor f1 current
  let created := current.filter fun f2 => !(old.any fun f1 => f2.path == f1.path)
  (deleted, modified, created)

/-- Possible failures of readFileInfos (open, read, or unmarshal error). -/
inductive ReadErr where
  | notExist
  | other
  deriving DecidableEq, Repr

/-- Mirrors the prologue of IndexNotes in bleve_indexer.go: readFileInfos
either yields the stored snapshot or fails. On fs.ErrNotExist the code
explicitly resets old to an empty slice; on any other error old keeps the
nil slice returned by readFileInfos, and a nil slice iterates as the empty
list in every loop that consumes it, so both error branches denote []. -/
def loadOldSnapshot : Except ReadErr (List FileInfo) → List FileInfo
  | .error .notExist => []
  | .error .other => []
  | .ok l => l

theorem modifiedFor_eq_nil_iff (f1 : FileInfo) (current : List FileInfo) :
    modifiedFor f1 current = [] ↔
      ∀ f2 ∈ current, f1.path = f2.path → f1.modTime = f2.modTime := by
  simp only [modifiedFor, List.map_eq_nil_iff, List.filter_eq_nil_iff]
  constructor
  · intro h f2 h2 hp
    have := h f2 h2
    simp only [Bool.and_eq_true, beq_iff_eq, bne_iff_ne, ne_eq, not_and, not_not] at this
    exact this hp
  · intro h f2 h2
    simp only [Bool.and_eq_true, beq_iff_eq, bne_iff_ne, ne_eq, not_and, not_not]
    exact h f2 h2

theorem mem_modifiedFor_iff (x f1 : FileInfo) (current : List FileInfo) :
    x ∈ modifiedFor f1 current ↔
      x = f1 ∧ ∃ f2 ∈ current, f1.path = f2.path ∧ f1.modTime ≠ f2.modTime := by
  simp only [modifiedFor, List.mem_map, List.mem_filter, Bool.and_eq_true, beq_iff_eq,
    bne_iff_ne, ne_eq]
  constructor
  · rintro ⟨f2, ⟨h2, hp, hm⟩, rfl⟩
    exact ⟨rfl, f2, h2, hp, hm⟩
  · rintro ⟨rfl, f2, h2, hp, hm⟩
    exact ⟨f2, ⟨h2, hp, hm⟩, rfl⟩

theorem mem_pathsOf_iff (l : List FileInfo) (p : String) :
    p ∈ pathsOf l ↔ ∃ f ∈ l, f.path = p := by
  simp [pathsOf]

theorem mem_pathsOf_deleted_iff (old current : List FileInfo) (p : String) :
    p ∈ pathsOf (compareFileInfos old current).1 ↔
      p ∈ pathsOf old ∧ p ∉ pathsOf current := by
  simp only [pathsOf, compareFileInfos, List.mem_map, List.mem_filter,
    Bool.not_eq_true', List.any_eq_false, beq_iff_eq, not_exists, not_and]
  constructor
  · rintro ⟨f1, ⟨h1, hno⟩, rfl⟩
    exact ⟨⟨f1, h1, rfl⟩, fun f2 h2 hp => hno f2 h2 (hp ▸ rfl)⟩
  · rintro ⟨⟨f1, h1, rfl⟩, hno⟩
    exact ⟨f1, ⟨h1, fun f2 h2 hp => hno f2 h2 hp.symm⟩, rfl⟩

theorem mem_pathsOf_created_iff (old current : List FileInfo) (p : String) :
    p ∈ pathsOf (compareFileInfos old current).2.2 ↔
      p ∈ pathsOf current ∧ p ∉ pathsOf old := by
  simp only [pathsOf, compareFileInfos, List.mem_map, List.mem_filter,
    Bool.not_eq_true', List.any_eq_false, beq_iff_eq, not_exists, not_and]
  constructor
  · rintro ⟨f2, ⟨h2, hno⟩, rfl⟩
    exact ⟨⟨f2, h2, rfl⟩, fun f1 h1 hp => hno f1 h1 (hp ▸ rfl)⟩
  · rintro ⟨⟨f2, h2, rfl⟩, hno⟩
    exact ⟨f2, ⟨h2, fun f1 h1 hp => hno f1 h1 hp.symm⟩, rfl⟩

theorem mem_pathsOf_modified_iff (old current : List FileInfo) (p : String) :
    p ∈ pathsOf (compareFileInfos old current).2.1 ↔
      ∃ f1 ∈ old, ∃ f2 ∈ current,
        f1.path = p ∧ f2.path = p ∧ f1.modTime ≠ f2.modTime := by
  simp only [pathsOf, compareFileInfos, List.mem_map, List.mem_flatMap]
  constructor
  · rintro ⟨x, ⟨f1, h1, hx⟩, rfl⟩
    rw [mem_modifiedFor_iff] at hx
    obtain ⟨rfl, f2, h2, hp, hm⟩ := hx
    exact ⟨x, h1, f2, h2, rfl, hp.symm, hm⟩
  · rintro ⟨f1, h1, f2, h2, rfl, hp2, hm⟩
    refine ⟨f1, ⟨f1, h1, ?_⟩, rfl⟩
    rw [mem_modifiedFor_iff]
    exact ⟨rfl, f2, h2, hp2.symm, hm⟩

/-- C9: the planner run with the same well-formed snapshot as both inputs
yields three empty sets. -/
theorem compareFileInfos_self (s : List FileInfo) (h : (pathsOf s).Nodup) :
    compareFileInfos s s = ([], [], []) := by
  have hinj : ∀ f1 ∈ s, ∀ f2 ∈ s, f1.path = f2.path → f1 = f2 := by
    intro f1 h1 f2 h2 e
    exact List.inj_on_of_nodup_map h h1 h2 e
  simp only [compareFileInfos, Prod.mk.injEq]
  refine ⟨?_, ?_, ?_⟩
  · rw [List.filter_eq_nil_iff]
    intro f1 h1
    simp only [Bool.not_eq_true', Bool.not_eq_false, List.any_eq_true, beq_iff_eq]
    exact ⟨f1, h1, rfl⟩
  · rw [List.flatMap_eq_nil_iff]
    intro f1 h1
    rw [modifiedFor_eq_nil_iff]
    intro f2 h2 hp
    rw [hinj f1 h1 f2 h2 hp]
  · rw [List.filter_eq_nil_iff]
    intro f2 h2
    simp only [Bool.not_eq_true', Bool.not_eq_false, List.any_eq_true, beq_iff_eq]
    exact ⟨f2, h2, rfl⟩

/-- Witness for compareFileInfos_self at a concrete snapshot. -/
theorem compareFileInfos_self_witness :
    (pathsOf [⟨"a", 1⟩, ⟨"b", 2⟩]).Nodup ∧
      compareFileInfos [⟨"a", 1⟩, ⟨"b", 2⟩] [⟨"a", 1⟩, ⟨"b", 2⟩] = ([], [], []) :=
  ⟨by decide, compareFileInfos_self [⟨"a", 1⟩, ⟨"b", 2⟩] (by decide)⟩

/-- C8: when the stored snapshot cannot be read the pass proceeds from an
empty prior snapshot: nothing is deleted and the whole current scan is
created, so the first run indexes everything. -/
theorem compare_after_failed_load (e : ReadErr) (current : List FileInfo) :
    compareFileInfos (loadOldSnapshot (.error e)) current = ([], [], current) := by
  cases e <;>
    simp [loadOldSnapshot, compareFileInfos, List.filter_eq_self]

/-- C2: on well-formed snapshots (paths unique within each input) the three
planner outputs have pairwise disjoint path sets; deleted is old minus
current, created is current minus old, modified is exactly the paths present
in both with differing modTime; and a path present in both with equal
modTime appears in none of the three. -/
theorem compareFileInfos_partition (old current : List FileInfo)
    (h1 : (pathsOf old).Nodup) (h2 : (pathsOf current).Nodup) :
    (∀ p, p ∈ pathsOf (compareFileInfos old current).1 ↔
        p ∈ pathsOf old ∧ p ∉ pathsOf current) ∧
    (∀ p, p ∈ pathsOf (compareFileInfos old current).2.2 ↔
        p ∈ pathsOf current ∧ p ∉ pathsOf old) ∧
    (∀ p, p ∈ pathsOf (compareFileInfos old current).2.1 ↔
        ∃ f1 ∈ old, ∃ f2 ∈ current,
          f1.path = p ∧ f2.path = p ∧ f1.modTime ≠ f2.modTime) ∧
    (∀ p, ¬(p ∈ pathsOf (compareFileInfos old current).1 ∧
        p ∈ pathsOf (compareFileInfos old current).2.1)) ∧
    (∀ p, ¬(p ∈ pathsOf (compareFileInfos old current).1 ∧
        p ∈ pathsOf (compareFileInfos old current).2.2)) ∧
    (∀ p, ¬(p ∈ pathsOf (compareFileInfos old current).2.1 ∧
        p ∈ pathsOf (compareFileInfos old current).2.2)) ∧
    (∀ f1 f2, f1 ∈ old → f2 ∈ current → f1.path = f2.path →
        f1.modTime = f2.modTime →
          f1.path ∉ pathsOf (compareFileInfos old current).1 ∧
          f1.path ∉ pathsOf (compareFileInfos old current).2.1 ∧
          f1.path ∉ pathsOf (compareFileInfos old current).2.2) := by
  refine ⟨mem_pathsOf_deleted_iff old current, mem_pathsOf_created_iff old current,
    mem_pathsOf_modified_iff old current, ?_, ?_, ?_, ?_⟩
  · intro p ⟨hd, hm⟩
    rw [mem_pathsOf_deleted_iff] at hd
    rw [mem_pathsOf_modified_iff] at hm
    obtain ⟨f1, _, f2, hf2, _, hp2, _⟩ := hm
    exact hd.2 ((mem_pathsOf_iff current p).2 ⟨f2, hf2, hp2⟩)
  · intro p ⟨hd, hc⟩
    rw [mem_pathsOf_deleted_iff] at hd
    rw [mem_pathsOf_created_iff] at hc
    exact hd.2 hc.1
  · intro p ⟨hm, hc⟩
    rw [mem_pathsOf_modified_iff] at hm
    rw [mem_pathsOf_created_iff] at hc
    obtain ⟨f1, hf1, _, _, hp1, _, _⟩ := hm
    exact hc.2 ((mem_pathsOf_iff old p).2 ⟨f1, hf1, hp1⟩)
  · intro f1 f2 hf1 hf2 hp hm
    refine ⟨?_, ?_, ?_⟩
    · rw [mem_pathsOf_deleted_iff]
      rintro ⟨_, hno⟩
      exact hno ((mem_pathsOf_iff current _).2 ⟨f2, hf2, hp.symm⟩)
    · rw [mem_pathsOf_modified_iff]
      rintro ⟨g1, hg1, g2, hg2, hpg1, hpg2, hne⟩
      have e1 : g1 = f1 := List.inj_on_of_nodup_map h1 hg1 hf1 (by rw [hpg1])
      have e2 : g2 = f2 := List.inj_on_of_nodup_map h2 hg2 hf2 (by rw [hpg2, ← hp])
      rw [e1, e2] at hne
      exact hne hm
    · rw [mem_pathsOf_created_iff]
      rintro ⟨_, hno⟩
      exact hno ((mem_pathsOf_iff old _).2 ⟨f1, hf1, rfl⟩)

/-- Example snapshots of the spec: old has a and b at time 1, current has b
at time 2 and c at time 1. -/
def oldEx : List FileInfo := [⟨"a", 1⟩, ⟨"b", 1⟩]

/-- The current snapshot of the spec example. -/
def curEx : List FileInfo := [⟨"b", 2⟩, ⟨"c", 1⟩]

/-- Witness for compareFileInfos_partition at the concrete example
snapshots. -/
theorem compareFileInfos_partition_witness :
    ((pathsOf oldEx).Nodup ∧ (pathsOf curEx).Nodup) ∧
      (∀ p, ¬(p ∈ pathsOf (compareFileInfos oldEx curEx).1 ∧
          p ∈ pathsOf (compareFileInfos oldEx curEx).2.1)) :=
  ⟨⟨by decide, by decide⟩,
    (compareFileInfos_partition oldEx curEx (by decide) (by decide)).2.2.2.1⟩

/-- Counterexample to C3: on the spec's own example the record emitted in
modified is the old snapshot's record with the old modTime, not the current
one. -/
theorem modified_old_modTime_cex :
    (compareFileInfos oldEx curEx).2.1 = [⟨"b", 1⟩] ∧
      (compareFileInfos oldEx curEx).2.1 ≠ [⟨"b", 2⟩] := by
  decide

/-- C3 amended: every record emitted in the planner's modified output is a
record of the old snapshot (so it carries the old modTime), and the current
snapshot holds a record with the same path and a different modTime. -/
theorem modified_mem_old (old current : List FileInfo) :
    ∀ f ∈ (compareFileInfos old current).2.1,
      f ∈ old ∧ ∃ g ∈ current, g.path = f.path ∧ g.modTime ≠ f.modTime := by
  intro f hf
  simp only [compareFileInfos, List.mem_flatMap] at hf
  obtain ⟨f1, h1, hx⟩ := hf
  rw [mem_modifiedFor_iff] at hx
  obtain ⟨rfl, f2, h2, hp, hm⟩ := hx
  exact ⟨h1, f2, h2, hp.symm, hm.symm⟩

/-- Witness for modified_mem_old at the example snapshots. -/
theorem modified_mem_old_witness :
    (⟨"b", 1⟩ : FileInfo) ∈ (compareFileInfos oldEx curEx).2.1 ∧
      ((⟨"b", 1⟩ : FileInfo) ∈ oldEx ∧
        ∃ g ∈ curEx, g.path = "b" ∧ g.modTime ≠ 1) :=
  ⟨by decide, modified_mem_old oldEx curEx ⟨"b", 1⟩ (by decide)⟩

/-- Shape of the bleve query built by Search: the query-string (token) form
or the match-all form. -/
inductive SearchQuery where
  | queryString (q : String)
  | matchAll
  deriving DecidableEq, Repr

/-- Fields of the bleve SearchRequest that Search touches: the query, the
sort keys, whether ANSI highlighting was attached, and the result size. A
fresh request from NewSearchRequest carries bleve's default size of 10
until Search overwrites it. -/
structure SearchRequest where
  query : SearchQuery
  sortKeys : List String
  highlightAnsi : Bool
  size : Nat
  deriving DecidableEq, Repr

/-- Go byte length of a string: len on a Go string counts UTF-8 bytes. -/
def goStrLen (s : String) : Nat :=
  (s.data.map Char.utf8Size).sum

/-- Mirrors strings.Trim applied to the space cutset: remove leading and
trailing space runes. -/
def trimGoSpaces (s : String) : String :=
  ⟨((s.data.dropWhile fun c => c == ' ').reverse.dropWhile fun c => c == ' ').reverse⟩

/-- Whether the last byte of the string is a space. Go tests the byte at
position queryLen-1; that byte equals 0x20 exactly when the final rune is
the ASCII space, every later byte of a multi-byte rune being a continuation
byte above 0x7f. -/
def lastByteIsSpace (s : String) : Bool :=
  match s.data.getLast? with
  | some c => c == ' '
  | none => false

/-- Mirrors the request construction in Search (bleve_indexer.go): trim
spaces from the query, append a star when the trimmed query is nonempty and
does not end in a space, build a query-string request with ANSI
highlighting, replace the whole request by a fresh match-all request sorted
by ModTime descending when the star-extended query is shorter than 3 bytes,
and finally set the size to 100. -/
def searchRequestFor (qry : String) : SearchRequest :=
  let query0 := trimGoSpaces qry
  let query := if 0 < goStrLen query0 && !(lastByteIsSpace query0) then query0 ++ "*" else query0
  let req : SearchRequest :=
    { query := .queryString query, sortKeys := [], highlightAnsi := true, size := 10 }
  let req :=
    if goStrLen query < 3 then
      { query := .matchAll, sortKeys := ["-ModTime"], highlightAnsi := false, size := 10 }
    else req
  { req with size := 100 }

/-- C4: a query whose trimmed length is 2 is sent as a prefix token query,
not as the match-all request the spec promises for lengths up to 2, because
Search appends the star before measuring the length against 3. -/
theorem searchRequest_two_char_token_query :
    trimGoSpaces "ab" = "ab" ∧ goStrLen (trimGoSpaces "ab") = 2 ∧
      (searchRequestFor "ab").query = .queryString "ab*" ∧
      (searchRequestFor "ab").query ≠ .matchAll ∧
      (searchRequestFor "ab").sortKeys = [] := by
  refine ⟨rfl, rfl, rfl, ?_, rfl⟩
  decide

/-- C10: every request Search submits, match-all and token form alike,
carries the fixed result-size limit 100. -/
theorem searchRequest_size (qry : String) : (searchRequestFor qry).size = 100 := rfl

/-- Operations one IndexNotes pass performs against the index and the
snapshot store. -/
inductive Op where
  | delete (path : String)
  | index (path : String) (body : String) (modTime : Nat)
  | store (snapshot : List FileInfo)
  deriving DecidableEq, Repr

/-- Holds exactly on the snapshot-persistence operation. -/
def IsStore : Op → Bool
  | .store _ => true
  | _ => false

/-- Records a pass re-submits: toIndex is append(modified, created...). -/
def toIndexOf (old current : List FileInfo) : List FileInfo :=
  (compareFileInfos old current).2.1 ++ (compareFileInfos old current).2.2

/-- Index mutations IndexNotes spawns concurrently: one Delete per deleted
record and one Index per record of toIndex. The read collaborator maps a
path to an optional body, none modelling a failed os.ReadFile (for instance
a file that vanished between scan and read); the Go code ignores the error,
so the body indexed for a failed read is string of nil, the empty string. -/
def parallelOps (old current : List FileInfo) (read : String → Option String) : List Op :=
  ((compareFileInfos old current).1.map fun fi => Op.delete fi.path) ++
    ((toIndexOf old current).map fun fi =>
      Op.index fi.path ((read fi.path).getD "") fi.modTime)

/-- Observable traces of one IndexNotes pass: the concurrently spawned
operations complete in some arbitrary interleaving, a permutation of
parallelOps; the wg.Wait() barrier joins them; only then does
StoreFileInfos persist the new current snapshot, once, as the final
operation. -/
def isPassTrace (old current : List FileInfo) (read : String → Option String)
    (t : List Op) : Prop :=
  ∃ σ, σ.Perm (parallelOps old current read) ∧ t = σ ++ [Op.store current]

/-- C5: in every trace of a synchronization pass the snapshot is persisted
exactly once, it is the final operation, and every delete and index
operation precedes it. -/
theorem indexNotes_store_once (old current : List FileInfo)
    (read : String → Option String) (t : List Op)
    (h : isPassTrace old current read t) :
    t.countP IsStore = 1 ∧ t.getLast? = some (Op.store current) ∧
      ∀ op ∈ t.dropLast, IsStore op = false := by
  obtain ⟨σ, hperm, rfl⟩ := h
  have hpar : ∀ op ∈ parallelOps old current read, IsStore op = false := by
    intro op hop
    simp only [parallelOps, List.mem_append, List.mem_map] at hop
    rcases hop with ⟨fi, _, rfl⟩ | ⟨fi, _, rfl⟩ <;> rfl
  have hσ : ∀ op ∈ σ, IsStore op = false := fun op hop => hpar op (hperm.mem_iff.mp hop)
  have hcount : σ.countP IsStore = 0 := by
    rw [List.countP_eq_zero]
    intro a ha
    simp [hσ a ha]
  refine ⟨?_, ?_, ?_⟩
  · rw [List.countP_append, hcount]
    rfl
  · exact List.getLast?_concat σ
  · rw [List.dropLast_concat]
    exact hσ

/-- Witness for indexNotes_store_once on a concrete pass deleting one file. -/
theorem indexNotes_store_once_witness :
    isPassTrace [⟨"a", 1⟩] [] (fun _ => none) [Op.delete "a", Op.store []] ∧
      ([Op.delete "a", Op.store []].countP IsStore = 1 ∧
        [Op.delete "a", Op.store []].getLast? = some (Op.store []) ∧
        ∀ op ∈ [Op.delete "a", Op.store []].dropLast, IsStore op = false) :=
  ⟨⟨[Op.delete "a"], by decide, rfl⟩,
    indexNotes_store_once [⟨"a", 1⟩] [] (fun _ => none) [Op.delete "a", Op.store []]
      ⟨[Op.delete "a"], by decide, rfl⟩⟩

/-- Counterexample to C6: a file that vanished between scan and read is not
skipped; the pass still submits an index operation for it, with an empty
body. -/
theorem vanished_file_indexed_cex :
    parallelOps [] [⟨"a", 1⟩] (fun _ => none) = [Op.index "a" "" 1] ∧
      isPassTrace [] [⟨"a", 1⟩] (fun _ => none)
        [Op.index "a" "" 1, Op.store [⟨"a", 1⟩]] ∧
      Op.index "a" "" 1 ∈ [Op.index "a" "" 1, Op.store [⟨"a", 1⟩]] :=
  ⟨by decide, ⟨[Op.index "a" "" 1], by decide, rfl⟩, by decide⟩

/-- C6 amended: every record of the modified-or-created set is submitted to
the index in every pass trace, the one whose read failed with the empty
string as body, and the pass still completes, ending with the snapshot
store. -/
theorem unreadable_file_indexed_empty (old current : List FileInfo)
    (read : String → Option String) (t : List Op)
    (h : isPassTrace old current read t) :
    (∀ fi ∈ toIndexOf old current,
        Op.index fi.path ((read fi.path).getD "") fi.modTime ∈ t) ∧
      (∀ fi ∈ toIndexOf old current, read fi.path = none →
        Op.index fi.path "" fi.modTime ∈ t) ∧
      t.getLast? = some (Op.store current) := by
  obtain ⟨σ, hperm, rfl⟩ := h
  have hmem : ∀ fi ∈ toIndexOf old current,
      Op.index fi.path ((read fi.path).getD "") fi.modTime ∈ σ := by
    intro fi hfi
    apply hperm.mem_iff.mpr
    simp only [parallelOps, List.mem_append, List.mem_map]
    exact Or.inr ⟨fi, hfi, rfl⟩
  refine ⟨fun fi hfi => List.mem_append_left _ (hmem fi hfi), ?_, List.getLast?_concat σ⟩
  intro fi hfi hread
  have hx := hmem fi hfi
  rw [hread] at hx
  exact List.mem_append_left _ hx

/-- Witness for unreadable_file_indexed_empty on a concrete pass whose only
file vanished before its body could be read. -/
theorem unreadable_file_indexed_empty_witness :
    isPassTrace [] [⟨"a", 1⟩] (fun _ => none)
        [Op.index "a" "" 1, Op.store [⟨"a", 1⟩]] ∧
      (∀ fi ∈ toIndexOf [] [⟨"a", 1⟩],
        (fun _ => (none : Option String)) fi.path = none →
          Op.index fi.path "" fi.modTime ∈ [Op.index "a" "" 1, Op.store [⟨"a", 1⟩]]) :=
  ⟨⟨[Op.index "a" "" 1], by decide, rfl⟩,
    (unreadable_file_indexed_empty [] [⟨"a", 1⟩] (fun _ => none)
      [Op.index "a" "" 1, Op.store [⟨"a", 1⟩]]
      ⟨[Op.index "a" "" 1], by decide, rfl⟩).2.1⟩

/-- Mirrors getFileInfoForFile (bleve_indexer.go): on a stat failure it
returns the zero FileInfo together with a failure flag, on success the path
paired with the stat modification time. The stat collaborator maps a path
to an optional modification time, none modelling a failed stat. -/
def getFileInfoForFile (stat : String → Option Nat) (path : String) : FileInfo × Bool :=
  match stat path with
  | none => (⟨"", 0⟩, false)
  | some t => (⟨path, t⟩, true)

/-- Mirrors the scan step of IndexNotes: current is the map over the
scanned paths keeping only the FileInfo component and discarding the error,
so a failed stat contributes the zero record rather than dropping the
entry. -/
def scanSnapshot (stat : String → Option Nat) (paths : List String) : List FileInfo :=
  paths.map fun p => (getFileInfoForFile stat p).1

/-- Stat collaborator that succeeds on path a only. -/
def statEx : String → Option Nat := fun p => if p == "a" then some 1 else none

/-- Counterexample to C7: when the stat of path b fails, b is not dropped
from the scanned snapshot; the zero record takes its place. -/
theorem stat_failure_not_dropped_cex :
    statEx "b" = none ∧
      scanSnapshot statEx ["a", "b"] = [⟨"a", 1⟩, ⟨"", 0⟩] ∧
      scanSnapshot statEx ["a", "b"] ≠ [⟨"a", 1⟩] := by
  decide

/-- C7 amended: the scanned snapshot has one record per surviving path;
paths whose stat succeeded appear with the stat-obtained modification time,
paths whose stat failed contribute the zero record instead of being
dropped, and nothing else occurs. -/
theorem scanSnapshot_spec (stat : String → Option Nat) (paths : List String) :
    (scanSnapshot stat paths).length = paths.length ∧
      (∀ p t, p ∈ paths → stat p = some t →
        (⟨p, t⟩ : FileInfo) ∈ scanSnapshot stat paths) ∧
      (∀ p, p ∈ paths → stat p = none →
        (⟨"", 0⟩ : FileInfo) ∈ scanSnapshot stat paths) ∧
      (∀ fi ∈ scanSnapshot stat paths,
        (fi.path ∈ paths ∧ stat fi.path = some fi.modTime) ∨ fi = ⟨"", 0⟩) := by
  refine ⟨by simp [scanSnapshot], ?_, ?_, ?_⟩
  · intro p t hp hstat
    simp only [scanSnapshot, List.mem_map]
    exact ⟨p, hp, by simp [getFileInfoForFile, hstat]⟩
  · intro p hp hstat
    simp only [scanSnapshot, List.mem_map]
    exact ⟨p, hp, by simp [getFileInfoForFile, hstat]⟩
  · intro fi hfi
    simp only [scanSnapshot, List.mem_map] at hfi
    obtain ⟨p, hp, hfi⟩ := hfi
    subst hfi
    cases hstat : stat p with
    | none => right; simp [getFileInfoForFile, hstat]
    | some t =>
        left
        simp only [getFileInfoForFile, hstat]
        exact ⟨hp, trivial⟩

/-- Witness for scanSnapshot_spec on the concrete two-path scan. -/
theorem scanSnapshot_spec_witness :
    ("a" ∈ ["a", "b"] ∧ statEx "a" = some 1) ∧
      (⟨"a", 1⟩ : FileInfo) ∈ scanSnapshot statEx ["a", "b"] :=
  ⟨⟨by decide, by decide⟩,
    (scanSnapshot_spec statEx ["a", "b"]).2.1 "a" 1 (by decide) (by decide)⟩

/-- A single search hit delivered to the front end. -/
structure DocumentMatch where
  path : String
  content : String
  deriving DecidableEq, Repr

/-- Mirrors search.SearchResult: an error flag (whether Err was non-nil)
and the hits. -/
structure SearchResult where
  err : Bool
  hits : List DocumentMatch
  deriving DecidableEq, Repr

/-- Mirrors ResultMsg of notes_search.go: a search result tagged with the
identifier of the query that produced it. -/
structure ResultMsg where
  results : SearchResult
  queryId : Nat
  deriving DecidableEq, Repr

/-- Result-relevant fields of the bubbletea Model of notes_search.go: the
query counter m.queryId, the list items currently shown, and the colour of
the text input (255 normally, 9 when the applied result carried an error).
appliedId is a history variable recording the identifier of the currently
applied result; it is not a field of the Go struct and is written exactly
when the Go code applies a result. -/
structure SessionState where
  queryId : Nat
  items : List DocumentMatch
  textColor : Nat
  appliedId : Option Nat
  deriving DecidableEq, Repr

/-- Mirrors the ResultMsg branch of Model.Update: a message whose
identifier differs from m.queryId is discarded and the model is returned
unchanged; otherwise the input colour and the list items are replaced from
the delivered result, which becomes the current one. -/
def onResult (s : SessionState) (msg : ResultMsg) : SessionState :=
  if s.queryId != msg.queryId then s
  else
    { s with
        textColor := if msg.results.err then 9 else 255,
        items := msg.results.hits,
        appliedId := some msg.queryId }

/-- Mirrors the issuance at the end of Model.Update when the text input
changed: m.queryId is incremented and the new value tags the query whose
eventual ResultMsg will carry it. Returns the new state together with the
identifier of the query just issued. -/
def issueQuery (s : SessionState) : SessionState × Nat :=
  let s2 : SessionState := { s with queryId := s.queryId + 1 }
  (s2, s2.queryId)

/-- Session events: a text-input change that issues a new query, and the
delivery of a tagged result message. -/
inductive Event where
  | input
  | deliver (msg : ResultMsg)

/-- One step of the interactive session. -/
def step (s : SessionState) : Event → SessionState
  | .input => (issueQuery s).1
  | .deliver msg => onResult s msg

/-- Session start: counter 0 (the Init query is also tagged 0), no items,
plain colour, nothing applied yet. -/
def initState : SessionState :=
  { queryId := 0, items := [], textColor := 255, appliedId := none }

/-- State reached after a list of session events. -/
def runSession (es : List Event) : SessionState :=
  es.foldl step initState

/-- The applied identifier never exceeds the query counter. -/
def AppliedLe (s : SessionState) : Prop :=
  ∀ j, s.appliedId = some j → j ≤ s.queryId

theorem appliedLe_step (s : SessionState) (e : Event) (h : AppliedLe s) :
    AppliedLe (step s e) := by
  obtain ⟨q, items, color, app⟩ := s
  cases e with
  | input =>
      intro j hj
      exact Nat.le_succ_of_le (h j hj)
  | deliver msg =>
      intro j hj
      by_cases hq : q != msg.queryId
      · simp only [step, onResult, if_pos hq] at hj ⊢
        exact h j hj
      · have hq2 : q = msg.queryId := by simpa using hq
        simp only [step, onResult, if_neg hq, Option.some.injEq] at hj ⊢
        omega

theorem appliedLe_foldl (es : List Event) (s : SessionState) (h : AppliedLe s) :
    AppliedLe (es.foldl step s) := by
  induction es generalizing s with
  | nil => exact h
  | cons e es ih => exact ih (step s e) (appliedLe_step s e h)

theorem appliedLe_runSession (es : List Event) : AppliedLe (runSession es) :=
  appliedLe_foldl es initState (fun _ hj => nomatch hj)

/-- C1: a delivered result whose identifier differs from the current query
counter is discarded with the model left completely unchanged; a result is
applied exactly when its identifier equals the counter, which is the latest
identifier issued so far (issuance tags each query with the freshly bumped
counter); and along any session the identifier of the applied result never
decreases, so no result older than the one currently shown ever replaces
it. -/
theorem resultMsg_serialization :
    (∀ s msg, msg.queryId ≠ s.queryId → onResult s msg = s) ∧
    (∀ s msg, msg.queryId = s.queryId →
        (onResult s msg).items = msg.results.hits ∧
        (onResult s msg).appliedId = some msg.queryId ∧
        (onResult s msg).queryId = s.queryId) ∧
    (∀ s, (issueQuery s).2 = (issueQuery s).1.queryId ∧
        (issueQuery s).1.queryId = s.queryId + 1) ∧
    (∀ es e j k, (runSession es).appliedId = some j →
        (runSession (es ++ [e])).appliedId = some k → j ≤ k) := by
  refine ⟨?_, ?_, fun s => ⟨rfl, rfl⟩, ?_⟩
  · intro s msg h
    have hb : (s.queryId != msg.queryId) = true := by
      simpa using (Ne.symm h)
    simp [onResult, hb]
  · intro s msg h
    have hb : (s.queryId != msg.queryId) = false := by
      simp [h]
    simp [onResult, hb]
  · intro es e j k hj hk
    have hk2 : (step (runSession es) e).appliedId = some k := by
      have : runSession (es ++ [e]) = step (runSession es) e := by
        simp [runSession, List.foldl_append]
      rw [← this]
      exact hk
    cases e with
    | input =>
        obtain ⟨s, hs⟩ : ∃ s, runSession es = s := ⟨_, rfl⟩
        rw [hs] at hj hk2
        obtain ⟨q, items, color, app⟩ := s
        have h1 : app = some j := hj
        have h2 : app = some k := hk2
        rw [h1] at h2
        exact Nat.le_of_eq (Option.some.inj h2)
    | deliver msg =>
        have hle := appliedLe_runSession es
        obtain ⟨s, hs⟩ : ∃ s, runSession es = s := ⟨_, rfl⟩
        rw [hs] at hj hk2
        rw [hs] at hle
        by_cases hq : s.queryId != msg.queryId
        · simp only [step, onResult, if_pos hq] at hk2
          rw [hj] at hk2
          exact Nat.le_of_eq (Option.some.inj hk2)
        · have hq2 : s.queryId = msg.queryId := by simpa using hq
          have hb : (s.queryId != msg.queryId) = false := by simp [hq2]
          have h2 : (onResult s msg).appliedId = some msg.queryId := by
            simp [onResult, hb]
          have h3 : some msg.queryId = some k := by
            rw [← h2]
            exact hk2
          have hjq := hle j hj
          have hk3 : k = msg.queryId := (Option.some.inj h3).symm
          omega

/-- Witness for resultMsg_serialization: a result tagged 5 delivered while
the counter is 0 is dropped without touching the state. -/
theorem resultMsg_serialization_witness :
    ((⟨⟨false, []⟩, 5⟩ : ResultMsg).queryId ≠ initState.queryId) ∧
      onResult initState ⟨⟨false, []⟩, 5⟩ = initState :=
  ⟨by decide, resultMsg_serialization.1 initState ⟨⟨false, []⟩, 5⟩ (by decide)⟩

end NotesSearch
